import Mathlib

/-!
Shallow embedding of the interactive-editor core of `envfetch`.

The repository contains two parallel interactive-mode implementations:

* `src/interactive/state.rs` + `src/interactive/controller.rs`: an
  `AppState` record (mode, entries, selection/scroll cursors, input
  buffers with byte cursors, status message, reload flag) and one pure
  handler per mode (`handle_list_mode`, `handle_add_mode`,
  `handle_edit_mode`, `handle_delete_mode`).
* `src/interactive.rs` + `src/interactive/list.rs`: an `InteractiveMode`
  record (entries, selection/scroll cursors, horizontal value scroll,
  truncation width) with `down`/`up`/`scroll_value_left`/
  `scroll_value_right`/`reload` and the list renderer's value
  truncation.

Rust `String`s are embedded as `List Char` (the list of Unicode scalar
values).  Rust's `String::len`, `String::insert` and `String::remove`
work on UTF-8 *byte* indices, so byte lengths and byte-index/char-index
conversion are modelled explicitly (`utf8Size`, `byteLen`,
`charPosOfByte`); an operation that would panic in Rust (indexing a
non-boundary byte) is embedded as `Option` returning `none`.

Wall-clock values (`std::time::Instant` expiry timestamps) are not
representable in a pure embedding; a message's expiry is modelled by the
boolean `message_expiry_set` recording whether an expiry is pending.
The external collaborator `get_variables()` is modelled by passing the
sequence it would return as an explicit argument to `reload`.
-/

namespace Envfetch

/-- UTF-8 byte length of one Unicode scalar value, as Rust's
`char::len_utf8` computes it. -/
def utf8Size (c : Char) : Nat :=
  if c.toNat < 0x80 then 1
  else if c.toNat < 0x800 then 2
  else if c.toNat < 0x10000 then 3
  else 4

/-- UTF-8 byte length of a string, as Rust's `str::len` returns it. -/
def byteLen : List Char → Nat
  | [] => 0
  | c :: cs => utf8Size c + byteLen cs

/-- Convert a byte index into a string to the corresponding character
position: `some p` when the byte index falls on the boundary in front of
the `p`-th character (or at the very end), `none` when it falls strictly
inside the UTF-8 encoding of some character.  This captures Rust's
`str::is_char_boundary` check together with the position it denotes. -/
def charPosOfByte : List Char → Nat → Option Nat
  | _, 0 => some 0
  | [], _ + 1 => none
  | c :: cs, i + 1 =>
    if i + 1 < utf8Size c then none
    else (charPosOfByte cs (i + 1 - utf8Size c)).map (· + 1)

/-- Rust `String::insert(idx, ch)`: panics (here `none`) unless `idx`
lies on a character boundary (indices past the end are not boundaries). -/
def insertAtByte (s : List Char) (i : Nat) (c : Char) : Option (List Char) :=
  (charPosOfByte s i).map fun p => s.take p ++ c :: s.drop p

/-- Rust `String::remove(idx)`: panics (here `none`) unless `idx` is a
character boundary strictly before the end; removes the character
starting at that byte. -/
def removeAtByte (s : List Char) (i : Nat) : Option (List Char) :=
  match charPosOfByte s i with
  | some p => if p < s.length then some (s.take p ++ s.drop (p + 1)) else none
  | none => none

/-- Rust `char::is_whitespace`: the Unicode `White_Space` property,
listed extensionally. -/
def isRustWhitespace (c : Char) : Bool :=
  (Nat.ble 0x09 c.toNat && Nat.ble c.toNat 0x0D) || c.toNat == 0x20 ||
    c.toNat == 0x85 || c.toNat == 0xA0 || c.toNat == 0x1680 ||
    (Nat.ble 0x2000 c.toNat && Nat.ble c.toNat 0x200A) ||
    c.toNat == 0x2028 || c.toNat == 0x2029 || c.toNat == 0x202F ||
    c.toNat == 0x205F || c.toNat == 0x3000

/-- Rust `str::trim`: strip leading and trailing whitespace characters. -/
def rustTrim (s : List Char) : List Char :=
  ((s.dropWhile isRustWhitespace).reverse.dropWhile isRustWhitespace).reverse

/-- One environment entry: a `(name, value)` pair. -/
abbrev Entry := List Char × List Char

/-- Rust `Vec::get`: `lookupIdx l i` is `some` of the `i`-th element when
`i < l.length`, else `none`. -/
def lookupIdx {α : Type} : List α → Nat → Option α
  | [], _ => none
  | a :: _, 0 => some a
  | _ :: t, n + 1 => lookupIdx t n

/-! ### The `AppState` subsystem (`src/interactive/state.rs`) -/

/-- The `Mode` enum from `src/interactive/state.rs`. -/
inductive Mode where
  | list
  | add
  | edit (key : List Char)
  | delete (key : List Char)
deriving DecidableEq

/-- The `InputFocus` enum from `src/interactive/state.rs`. -/
inductive InputFocus where
  | key
  | value
deriving DecidableEq

/-- The `AppState` record from `src/interactive/state.rs`.  `message_expiry_set`
stands in for the untranslatable `Option<Instant>` field: `true` iff an
expiry instant is currently stored. -/
structure AppState where
  mode : Mode
  should_quit : Bool
  entries : List Entry
  current_index : Nat
  scroll_offset : Nat
  message : Option (List Char)
  message_expiry_set : Bool
  input_key : List Char
  input_value : List Char
  input_cursor_key : Nat
  input_cursor_value : Nat
  input_focus : InputFocus
  reload_requested : Bool
deriving DecidableEq

/-- Constructor `AppState::new`. -/
def AppState.new (entries : List Entry) : AppState where
  mode := Mode.list
  should_quit := false
  entries := entries
  current_index := 0
  scroll_offset := 0
  message := none
  message_expiry_set := false
  input_key := []
  input_value := []
  input_cursor_key := 0
  input_cursor_value := 0
  input_focus := InputFocus.key
  reload_requested := false

/-- Mutator `AppState::show_message` (the `Duration` argument only feeds the
wall-clock expiry, represented by `message_expiry_set`). -/
def AppState.show_message (s : AppState) (msg : List Char) : AppState :=
  { s with message := some msg, message_expiry_set := true }

/-- Mutator `AppState::clear_message`. -/
def AppState.clear_message (s : AppState) : AppState :=
  { s with message := none, message_expiry_set := false }

/-- Mutator `AppState::request_reload`. -/
def AppState.request_reload (s : AppState) : AppState :=
  { s with reload_requested := true }

def msgVariableAdded : List Char :=
  ['V', 'a', 'r', 'i', 'a', 'b', 'l', 'e', ' ', 'a', 'd', 'd', 'e', 'd']

def msgKeyCannotBeEmpty : List Char :=
  ['K', 'e', 'y', ' ', 'c', 'a', 'n', 'n', 'o', 't', ' ', 'b', 'e', ' ',
   'e', 'm', 'p', 't', 'y']

def msgVariableUpdated : List Char :=
  ['V', 'a', 'r', 'i', 'a', 'b', 'l', 'e', ' ', 'u', 'p', 'd', 'a', 't',
   'e', 'd']

def msgVariableDeleted : List Char :=
  ['V', 'a', 'r', 'i', 'a', 'b', 'l', 'e', ' ', 'd', 'e', 'l', 'e', 't',
   'e', 'd']

def msgListReloaded : List Char :=
  ['L', 'i', 's', 't', ' ', 'r', 'e', 'l', 'o', 'a', 'd', 'e', 'd']

/-- Mutator `AppState::reload`.  The sequence `newEntries` stands for the value
returned by the collaborator `crate::variables::get_variables()`. -/
def AppState.reload (newEntries : List Entry) (s : AppState) : AppState :=
  ({ s with entries := newEntries, current_index := 0, scroll_offset := 0,
            reload_requested := false } : AppState).show_message msgListReloaded

/-! ### Key events (`crossterm::event::KeyEvent`, the parts the
controller inspects: the key code and the CONTROL modifier) -/

inductive KeyCode where
  | char (c : Char)
  | enter
  | esc
  | tab
  | left
  | right
  | backspace
  | down
  | up
  | other
deriving DecidableEq

structure KeyEvent where
  code : KeyCode
  ctrl : Bool
deriving DecidableEq

/-! ### Controller (`src/interactive/controller.rs`) -/

/-- Handler `handle_list_mode`.  Translated arm by arm; a `Char` pattern with no
modifier guard matches regardless of modifiers, as in the source. -/
def handle_list_mode (s : AppState) (key : KeyEvent) : AppState :=
  match key.code with
  | KeyCode.char c =>
    if c = 'q' ∧ key.ctrl then
      { s with should_quit := true }
    else if c = 'a' then
      { s with mode := Mode.add, input_key := [], input_value := [],
               input_cursor_key := 0, input_cursor_value := 0,
               input_focus := InputFocus.key }
    else if c = 'e' then
      match lookupIdx s.entries s.current_index with
      | some kv =>
        { s with mode := Mode.edit kv.1, input_value := kv.2,
                 input_cursor_value := byteLen kv.2 }
      | none => s
    else if c = 'd' then
      match lookupIdx s.entries s.current_index with
      | some kv => { s with mode := Mode.delete kv.1 }
      | none => s
    else if c = 'r' ∧ key.ctrl then
      s.request_reload
    else s
  | KeyCode.down =>
    if s.current_index < s.entries.length - 1 then
      if s.current_index + 1 ≥ s.scroll_offset + 10 then
        { s with current_index := s.current_index + 1,
                 scroll_offset := s.scroll_offset + 1 }
      else
        { s with current_index := s.current_index + 1 }
    else s
  | KeyCode.up =>
    if s.current_index > 0 then
      if s.current_index - 1 < s.scroll_offset then
        { s with current_index := s.current_index - 1,
                 scroll_offset := s.current_index - 1 }
      else
        { s with current_index := s.current_index - 1 }
    else s
  | _ => s

/-- Handler `handle_add_mode`.  The buffer byte-cursor operations can panic in
Rust (`String::insert`/`String::remove` at a non-boundary byte index);
a panic is embedded as `none`. -/
def handle_add_mode (s : AppState) (key : KeyEvent) : Option AppState :=
  match key.code with
  | KeyCode.enter =>
    if ¬(rustTrim s.input_key).isEmpty then
      let s1 : AppState :=
        { s with entries := s.entries ++
            [(rustTrim s.input_key, rustTrim s.input_value)] }
      some { s1.show_message msgVariableAdded with mode := Mode.list }
    else
      some (s.show_message msgKeyCannotBeEmpty)
  | KeyCode.esc => some { s with mode := Mode.list }
  | KeyCode.tab =>
    some { s with input_focus :=
      match s.input_focus with
      | InputFocus.key => InputFocus.value
      | InputFocus.value => InputFocus.key }
  | KeyCode.left =>
    match s.input_focus with
    | InputFocus.key =>
      some (if s.input_cursor_key > 0 then
              { s with input_cursor_key := s.input_cursor_key - 1 }
            else s)
    | InputFocus.value =>
      some (if s.input_cursor_value > 0 then
              { s with input_cursor_value := s.input_cursor_value - 1 }
            else s)
  | KeyCode.right =>
    match s.input_focus with
    | InputFocus.key =>
      some (if s.input_cursor_key < byteLen s.input_key then
              { s with input_cursor_key := s.input_cursor_key + 1 }
            else s)
    | InputFocus.value =>
      some (if s.input_cursor_value < byteLen s.input_value then
              { s with input_cursor_value := s.input_cursor_value + 1 }
            else s)
  | KeyCode.backspace =>
    match s.input_focus with
    | InputFocus.key =>
      if s.input_cursor_key > 0 then
        (removeAtByte s.input_key (s.input_cursor_key - 1)).map fun t =>
          { s with input_key := t, input_cursor_key := s.input_cursor_key - 1 }
      else some s
    | InputFocus.value =>
      if s.input_cursor_value > 0 then
        (removeAtByte s.input_value (s.input_cursor_value - 1)).map fun t =>
          { s with input_value := t,
                   input_cursor_value := s.input_cursor_value - 1 }
      else some s
  | KeyCode.char c =>
    match s.input_focus with
    | InputFocus.key =>
      (insertAtByte s.input_key s.input_cursor_key c).map fun t =>
        { s with input_key := t, input_cursor_key := s.input_cursor_key + 1 }
    | InputFocus.value =>
      (insertAtByte s.input_value s.input_cursor_value c).map fun t =>
        { s with input_value := t,
                 input_cursor_value := s.input_cursor_value + 1 }
  | _ => some s

/-- The `iter_mut().find(|(k, _)| k == key_name)` followed by the in-place
assignment `entry.1 = newV` in `handle_edit_mode`: rewrite the value of
the first entry whose key equals `keyName`; the boolean records whether
a match was found (and hence whether the confirmation is shown). -/
def edit_first (keyName newV : List Char) : List Entry → List Entry × Bool
  | [] => ([], false)
  | e :: rest =>
    if e.1 = keyName then ((keyName, newV) :: rest, true)
    else
      let r := edit_first keyName newV rest
      (e :: r.1, r.2)

/-- Handler `handle_edit_mode`.  As in `handle_add_mode`, byte-cursor buffer
operations that would panic return `none`. -/
def handle_edit_mode (s : AppState) (key : KeyEvent) : Option AppState :=
  match key.code with
  | KeyCode.enter =>
    some (match s.mode with
      | Mode.edit keyName =>
        let r := edit_first keyName (rustTrim s.input_value) s.entries
        let s1 := { s with entries := r.1 }
        let s2 := if r.2 then s1.show_message msgVariableUpdated else s1
        { s2 with mode := Mode.list }
      | _ => s)
  | KeyCode.esc => some { s with mode := Mode.list }
  | KeyCode.left =>
    some (if s.input_cursor_value > 0 then
            { s with input_cursor_value := s.input_cursor_value - 1 }
          else s)
  | KeyCode.right =>
    some (if s.input_cursor_value < byteLen s.input_value then
            { s with input_cursor_value := s.input_cursor_value + 1 }
          else s)
  | KeyCode.backspace =>
    if s.input_cursor_value > 0 then
      (removeAtByte s.input_value (s.input_cursor_value - 1)).map fun t =>
        { s with input_value := t,
                 input_cursor_value := s.input_cursor_value - 1 }
    else some s
  | KeyCode.char c =>
    (insertAtByte s.input_value s.input_cursor_value c).map fun t =>
      { s with input_value := t,
               input_cursor_value := s.input_cursor_value + 1 }
  | _ => some s

/-- Handler `handle_delete_mode`.  On `y` the source runs
`entries.retain(|(k, _)| k != key_name)` inside the `if let
Mode::Delete` and then unconditionally sets the mode to `List`. -/
def handle_delete_mode (s : AppState) (key : KeyEvent) : AppState :=
  match key.code with
  | KeyCode.char c =>
    if c = 'y' then
      let s1 :=
        match s.mode with
        | Mode.delete keyName =>
          (({ s with entries :=
                s.entries.filter fun e => decide (e.1 ≠ keyName) } :
            AppState).show_message msgVariableDeleted)
        | _ => s
      { s1 with mode := Mode.list }
    else if c = 'n' then { s with mode := Mode.list }
    else s
  | KeyCode.esc => { s with mode := Mode.list }
  | _ => s

/-! ### The `InteractiveMode` subsystem (`src/interactive.rs`) -/

/-- The `Mode` enum of `src/interactive.rs` (one variant only). -/
inductive IMode where
  | list
deriving DecidableEq

/-- The `InteractiveMode` record from `src/interactive.rs`. -/
structure IState where
  mode : IMode
  exit : Bool
  entries : List Entry
  current_index : Nat
  scroll_offset : Nat
  visible_options : Nat
  truncation_len : Nat
  value_scroll_offset : Nat
deriving DecidableEq

/-- Constructor `InteractiveMode::default`, with the collaborator
`get_variables()` result passed explicitly. -/
def IState.init (entries : List Entry) : IState where
  mode := IMode.list
  exit := false
  entries := entries
  current_index := 0
  scroll_offset := 0
  visible_options := 30
  truncation_len := 30
  value_scroll_offset := 0

/-- Method `InteractiveMode::scroll_value_left`. -/
def IState.scroll_value_left (s : IState) : IState :=
  if s.value_scroll_offset > 0 then
    { s with value_scroll_offset := s.value_scroll_offset - 1 }
  else s

/-- Method `InteractiveMode::scroll_value_right`. -/
def IState.scroll_value_right (s : IState) : IState :=
  match lookupIdx s.entries s.current_index with
  | some kv =>
    if s.value_scroll_offset < byteLen kv.2 then
      { s with value_scroll_offset := s.value_scroll_offset + 1 }
    else s
  | none => s

/-- Method `InteractiveMode::down`.  `saturating_sub` on `usize` is `Nat`
subtraction; the locals `visible_area = visible_options - 8` and
`scroll_trigger = scroll_offset + (visible_area - 4)` are inlined. -/
def IState.down (s : IState) : IState :=
  if s.current_index < s.entries.length - 1 then
    if s.current_index + 1 >
        s.scroll_offset + (s.visible_options - 8 - 4) then
      { s with current_index := s.current_index + 1,
               value_scroll_offset := 0,
               scroll_offset := s.scroll_offset + 1 }
    else
      { s with current_index := s.current_index + 1,
               value_scroll_offset := 0 }
  else s

/-- Method `InteractiveMode::up`. -/
def IState.up (s : IState) : IState :=
  if s.current_index > 0 then
    if s.current_index - 1 < s.scroll_offset then
      { s with current_index := s.current_index - 1,
               value_scroll_offset := 0,
               scroll_offset := s.current_index - 1 }
    else
      { s with current_index := s.current_index - 1,
               value_scroll_offset := 0 }
  else s

/-- Method `InteractiveMode::reload`, with the `get_variables()` result passed
explicitly. -/
def IState.reload (newEntries : List Entry) (s : IState) : IState :=
  { s with entries := newEntries, current_index := 0, scroll_offset := 0,
           value_scroll_offset := 0 }

/-- Method `InteractiveMode::handle_key_event`.  `env` stands for the sequence
`get_variables()` would return if this event triggers a reload.  The
`q`/`Q` and `r`/`R` arms require the modifiers to equal CONTROL. -/
def IState.handle_key_event (env : List Entry) (s : IState)
    (key : KeyEvent) : IState :=
  match key.code with
  | KeyCode.char c =>
    if (c = 'q' ∨ c = 'Q') ∧ key.ctrl then { s with exit := true }
    else if (c = 'r' ∨ c = 'R') ∧ key.ctrl then s.reload env
    else s
  | KeyCode.down => s.down
  | KeyCode.up => s.up
  | KeyCode.left => s.scroll_value_left
  | KeyCode.right => s.scroll_value_right
  | _ => s

/-- One event-loop input step of `InteractiveMode`: a key event paired
with the environment snapshot a reload would read. -/
def stepIM (s : IState) (ev : KeyEvent × List Entry) : IState :=
  IState.handle_key_event ev.2 s ev.1

/-! ### Renderer value truncation (`src/interactive/list.rs`) -/

/-- The displayed value computed in `render_main_list`:
`if value.len() > state.truncation_len
   \x7b format!("\x7b\x7d...", &value[..state.truncation_len]) \x7d
 else \x7b value.clone() \x7d`.
Byte-slicing `&value[..w]` panics (`none`) when `w` is not a character
boundary. -/
def truncated_value (value : List Char) (truncation_len : Nat) :
    Option (List Char) :=
  if byteLen value > truncation_len then
    (charPosOfByte value truncation_len).map fun p =>
      value.take p ++ ['.', '.', '.']
  else some value

/-! ### State invariants -/

/-- Navigation invariant of the `AppState` subsystem: the selection is
in range (`0` for an empty list) and sits inside the fixed visible
window of height `10` starting at `scroll_offset`. -/
def listNavInv (s : AppState) : Prop :=
  (s.entries.length = 0 → s.current_index = 0) ∧
  (0 < s.entries.length → s.current_index < s.entries.length) ∧
  s.scroll_offset ≤ s.current_index ∧
  s.current_index < s.scroll_offset + 10

instance (s : AppState) : Decidable (listNavInv s) := by
  unfold listNavInv; infer_instance

/-- The visible-window height of the `InteractiveMode` navigation: the
selection never passes `scroll_offset + (visible_options - 8 - 4)`, a
window of that many rows plus one. -/
def navWindow (s : IState) : Nat := s.visible_options - 8 - 4 + 1

/-- Navigation invariant of the `InteractiveMode` subsystem. -/
def imNavInv (s : IState) : Prop :=
  (s.entries.length = 0 → s.current_index = 0) ∧
  (0 < s.entries.length → s.current_index < s.entries.length) ∧
  s.scroll_offset ≤ s.current_index ∧
  s.current_index < s.scroll_offset + navWindow s

instance (s : IState) : Decidable (imNavInv s) := by
  unfold imNavInv; infer_instance

/-- Byte length of the currently selected entry's value (`0` when the
selection is out of range). -/
def curValueLen (s : IState) : Nat :=
  match lookupIdx s.entries s.current_index with
  | some kv => byteLen kv.2
  | none => 0

/-- Horizontal-scroll invariant of the `InteractiveMode` subsystem: the
selection is in range and the value scroll offset never exceeds the
byte length of the selected value. -/
def imScrollInv (s : IState) : Prop :=
  (s.entries.length = 0 → s.current_index = 0) ∧
  (0 < s.entries.length → s.current_index < s.entries.length) ∧
  s.value_scroll_offset ≤ curValueLen s

instance (s : IState) : Decidable (imScrollInv s) := by
  unfold imScrollInv; infer_instance

/-! ### Helper lemmas -/

theorem foldl_preserves {α β : Type} (P : α → Prop) (Q : β → Prop)
    (f : α → β → α)
    (hstep : ∀ a b, Q b → P a → P (f a b)) :
    ∀ (l : List β) (a : α), (∀ b ∈ l, Q b) → P a → P (l.foldl f a) := by
  intro l
  induction l with
  | nil => intro a _ ha; exact ha
  | cons b t ih =>
    intro a hq ha
    exact ih (f a b) (fun x hx => hq x (List.mem_cons_of_mem b hx))
      (hstep a b (hq b (List.mem_cons_self b t)) ha)

theorem listNav_step (s : AppState) (k : KeyEvent)
    (hk : k.code = KeyCode.down ∨ k.code = KeyCode.up)
    (hs : listNavInv s) : listNavInv (handle_list_mode s k) := by
  obtain ⟨h0, h1, h2, h3⟩ := hs
  rcases hk with h | h <;> simp only [handle_list_mode, h] <;>
    unfold listNavInv <;> split_ifs <;> (try dsimp only) <;> omega

theorem imNav_down (s : IState) (hs : imNavInv s) :
    imNavInv s.down := by
  obtain ⟨h0, h1, h2, h3⟩ := hs
  unfold imNavInv navWindow at *
  unfold IState.down
  split_ifs <;> (try dsimp only) <;> omega

theorem imNav_up (s : IState) (hs : imNavInv s) :
    imNavInv s.up := by
  obtain ⟨h0, h1, h2, h3⟩ := hs
  unfold imNavInv navWindow at *
  unfold IState.up
  split_ifs <;> (try dsimp only) <;> omega

theorem imNav_step (s : IState) (ev : KeyEvent × List Entry)
    (hk : ev.1.code = KeyCode.down ∨ ev.1.code = KeyCode.up)
    (hs : imNavInv s) : imNavInv (stepIM s ev) := by
  rcases hk with h | h <;>
    simp only [stepIM, IState.handle_key_event, h]
  · exact imNav_down s hs
  · exact imNav_up s hs

theorem curValueLen_vso (s : IState) (n : Nat) :
    curValueLen { s with value_scroll_offset := n } = curValueLen s := rfl

theorem imScroll_down (s : IState) (hs : imScrollInv s) :
    imScrollInv s.down := by
  obtain ⟨h0, h1, h2⟩ := hs
  unfold imScrollInv at *
  unfold IState.down
  split_ifs <;> refine ⟨?_, ?_, ?_⟩ <;> (try dsimp only) <;> omega

theorem imScroll_up (s : IState) (hs : imScrollInv s) :
    imScrollInv s.up := by
  obtain ⟨h0, h1, h2⟩ := hs
  unfold imScrollInv at *
  unfold IState.up
  split_ifs <;> refine ⟨?_, ?_, ?_⟩ <;> (try dsimp only) <;> omega

theorem imScroll_step (s : IState) (ev : KeyEvent × List Entry)
    (hs : imScrollInv s) : imScrollInv (stepIM s ev) := by
  obtain ⟨⟨code, ctrl⟩, env⟩ := ev
  obtain ⟨h0, h1, h2⟩ := hs
  cases code with
  | char c =>
    simp only [stepIM, IState.handle_key_event]
    split_ifs
    · exact ⟨h0, h1, h2⟩
    · exact ⟨fun _ => rfl, fun h => h, Nat.zero_le _⟩
    · exact ⟨h0, h1, h2⟩
  | down => exact imScroll_down s ⟨h0, h1, h2⟩
  | up => exact imScroll_up s ⟨h0, h1, h2⟩
  | left =>
    simp only [stepIM, IState.handle_key_event, IState.scroll_value_left]
    split_ifs
    · refine ⟨h0, h1, ?_⟩
      rw [curValueLen_vso]
      dsimp only
      omega
    · exact ⟨h0, h1, h2⟩
  | right =>
    simp only [stepIM, IState.handle_key_event, IState.scroll_value_right]
    rcases hl : lookupIdx s.entries s.current_index with _ | kv
    · exact ⟨h0, h1, h2⟩
    · have hcv : curValueLen s = byteLen kv.2 := by
        unfold curValueLen; rw [hl]
      dsimp only
      split_ifs with hv
      · refine ⟨h0, h1, ?_⟩
        rw [curValueLen_vso, hcv]
        dsimp only
        omega
      · exact ⟨h0, h1, h2⟩
  | enter => exact ⟨h0, h1, h2⟩
  | esc => exact ⟨h0, h1, h2⟩
  | tab => exact ⟨h0, h1, h2⟩
  | backspace => exact ⟨h0, h1, h2⟩
  | other => exact ⟨h0, h1, h2⟩

theorem stepIM_vso_reset (t : IState) (k : KeyEvent) (env : List Entry)
    (hk : k.code = KeyCode.down ∨ k.code = KeyCode.up)
    (hmove : (stepIM t (k, env)).current_index ≠ t.current_index) :
    (stepIM t (k, env)).value_scroll_offset = 0 := by
  rcases hk with h | h <;>
    simp only [stepIM, IState.handle_key_event, h, IState.down, IState.up]
      at hmove ⊢ <;>
    split_ifs at hmove ⊢ <;>
    first
      | rfl
      | exact absurd rfl hmove

/-! ### Lemmas on `edit_first` and first-match indices -/

/-- Character position of the first entry whose key equals `K`. -/
def firstKeyIdx (K : List Char) : List Entry → Option Nat
  | [] => none
  | e :: rest =>
    if e.1 = K then some 0 else (firstKeyIdx K rest).map (· + 1)

theorem edit_first_no_match (K v : List Char) (l : List Entry)
    (h : ∀ e ∈ l, e.1 ≠ K) : edit_first K v l = (l, false) := by
  induction l with
  | nil => rfl
  | cons e t ih =>
    have he : e.1 ≠ K := h e (List.mem_cons_self e t)
    have ht : ∀ x ∈ t, x.1 ≠ K := fun x hx => h x (List.mem_cons_of_mem e hx)
    simp only [edit_first, if_neg he, ih ht]

theorem edit_first_match (K v old : List Char) (l₁ l₂ : List Entry)
    (h : ∀ e ∈ l₁, e.1 ≠ K) :
    edit_first K v (l₁ ++ (K, old) :: l₂) = (l₁ ++ (K, v) :: l₂, true) := by
  induction l₁ with
  | nil => simp [edit_first]
  | cons e t ih =>
    have he : e.1 ≠ K := h e (List.mem_cons_self e t)
    have ht : ∀ x ∈ t, x.1 ≠ K := fun x hx => h x (List.mem_cons_of_mem e hx)
    simp only [List.cons_append, edit_first, List.append_eq, if_neg he, ih ht]

theorem edit_first_length (K v : List Char) (l : List Entry) :
    (edit_first K v l).1.length = l.length := by
  induction l with
  | nil => rfl
  | cons e t ih =>
    simp only [edit_first]
    split_ifs <;> simp [ih]

theorem edit_first_keys (K v : List Char) (l : List Entry) (i : Nat) :
    (lookupIdx (edit_first K v l).1 i).map Prod.fst
      = (lookupIdx l i).map Prod.fst := by
  induction l generalizing i with
  | nil => rfl
  | cons e t ih =>
    simp only [edit_first]
    split_ifs with he
    · cases i with
      | zero => simp [lookupIdx, he]
      | succ n => rfl
    · cases i with
      | zero => rfl
      | succ n => exact ih n

theorem edit_first_frame (K v : List Char) (l : List Entry) (i : Nat)
    (h : firstKeyIdx K l ≠ some i) :
    lookupIdx (edit_first K v l).1 i = lookupIdx l i := by
  induction l generalizing i with
  | nil => rfl
  | cons e t ih =>
    simp only [edit_first, firstKeyIdx] at h ⊢
    split_ifs with he
    · rw [if_pos he] at h
      cases i with
      | zero => exact absurd rfl h
      | succ n => rfl
    · rw [if_neg he] at h
      cases i with
      | zero => rfl
      | succ n =>
        refine ih n fun hn => h ?_
        rw [hn]
        rfl

/-! ### Byte-position lemma for the renderer -/

theorem byteLen_take_of_charPos (s : List Char) :
    ∀ (i p : Nat), charPosOfByte s i = some p → byteLen (s.take p) = i := by
  induction s with
  | nil =>
    intro i p h
    cases i with
    | zero =>
      simp only [charPosOfByte, Option.some.injEq] at h
      simp [← h, byteLen]
    | succ n => simp [charPosOfByte] at h
  | cons c cs ih =>
    intro i p h
    cases i with
    | zero =>
      simp only [charPosOfByte, Option.some.injEq] at h
      simp [← h, byteLen]
    | succ n =>
      simp only [charPosOfByte] at h
      split_ifs at h with hlt
      rcases Option.map_eq_some'.mp h with ⟨q, hq, rfl⟩
      have := ih (n + 1 - utf8Size c) q hq
      simp only [List.take_succ_cons, byteLen]
      omega

/-! ### Claim theorems -/

/-- C1: starting from any state satisfying the state invariants, every
sequence of Down/Up events handled in List mode preserves them: the
selection stays in `[0, entries.length)` (and is `0` when the list is
empty) and inside the fixed visible window above `scroll_offset` (height
`10` in the `handle_list_mode` controller, `visible_options - 8 - 4 + 1`
in `InteractiveMode`); and in the subsystem that has a horizontal value
scroll, every vertical move resets `value_scroll_offset` to `0`. -/
theorem list_nav_invariants_hold :
    (∀ (s : AppState) (evs : List KeyEvent),
      (∀ e ∈ evs, e.code = KeyCode.down ∨ e.code = KeyCode.up) →
      listNavInv s → listNavInv (evs.foldl handle_list_mode s)) ∧
    (∀ (t : IState) (evs : List (KeyEvent × List Entry)),
      (∀ e ∈ evs, e.1.code = KeyCode.down ∨ e.1.code = KeyCode.up) →
      imNavInv t → imNavInv (evs.foldl stepIM t)) ∧
    (∀ (t : IState) (k : KeyEvent) (env : List Entry),
      k.code = KeyCode.down ∨ k.code = KeyCode.up →
      (stepIM t (k, env)).current_index ≠ t.current_index →
      (stepIM t (k, env)).value_scroll_offset = 0) := by
  refine ⟨?_, ?_, stepIM_vso_reset⟩
  · intro s evs hq hs
    exact foldl_preserves listNavInv
      (fun e => e.code = KeyCode.down ∨ e.code = KeyCode.up)
      handle_list_mode (fun a b hb ha => listNav_step a b hb ha) evs s hq hs
  · intro t evs hq ht
    exact foldl_preserves imNavInv
      (fun e => e.1.code = KeyCode.down ∨ e.1.code = KeyCode.up)
      stepIM (fun a b hb ha => imNav_step a b hb ha) evs t hq ht

theorem list_nav_invariants_hold_witness :
    listNavInv
      (([⟨KeyCode.down, false⟩, ⟨KeyCode.down, false⟩, ⟨KeyCode.up, false⟩] :
          List KeyEvent).foldl handle_list_mode
        (AppState.new [(['A'], ['1']), (['B'], ['2'])])) ∧
    imNavInv
      (([(⟨KeyCode.down, false⟩, []), (⟨KeyCode.up, false⟩, [])] :
          List (KeyEvent × List Entry)).foldl stepIM
        (IState.init [(['A'], ['1']), (['B'], ['2'])])) ∧
    (stepIM (IState.init [(['A'], ['1']), (['B'], ['2'])])
        (⟨KeyCode.down, false⟩, [])).value_scroll_offset = 0 :=
  ⟨list_nav_invariants_hold.1 _ _ (by decide) (by decide),
   list_nav_invariants_hold.2.1 _ _ (by decide) (by decide),
   list_nav_invariants_hold.2.2 _ _ _ (Or.inl rfl) (by decide)⟩

/-- C2: in Add mode, Enter with a key buffer whose trim is non-empty
appends exactly the pair `(trim key, trim value)` at the end of
`entries`, posts the confirmation message, and returns the mode to
List; every other field of the state (in particular every pre-existing
entry) is unchanged. -/
theorem add_confirm_appends_entry (s : AppState) (b : Bool)
    (hmode : s.mode = Mode.add) (hkey : rustTrim s.input_key ≠ []) :
    handle_add_mode s ⟨KeyCode.enter, b⟩ =
      some { s with
        entries := s.entries ++
          [(rustTrim s.input_key, rustTrim s.input_value)],
        message := some msgVariableAdded,
        message_expiry_set := true,
        mode := Mode.list } := by
  simp only [handle_add_mode, AppState.show_message]
  rw [if_pos]
  simp [List.isEmpty_iff, hkey]

theorem add_confirm_appends_entry_witness :
    rustTrim ['X'] ≠ [] ∧
    handle_add_mode
        { AppState.new [] with mode := Mode.add, input_key := ['X'],
                               input_value := ['Y'] }
        ⟨KeyCode.enter, false⟩ =
      some { { AppState.new [] with mode := Mode.add, input_key := ['X'],
                                    input_value := ['Y'] } with
        entries := [(rustTrim ['X'], rustTrim ['Y'])],
        message := some msgVariableAdded,
        message_expiry_set := true,
        mode := Mode.list } :=
  ⟨by decide, add_confirm_appends_entry _ false rfl (by decide)⟩

/-- C3: the reload operation replaces `entries` with the sequence the
variable-source collaborator returns and resets the cursors, for every
prior state.  In the `AppState` subsystem, `reload` also resets
`current_index` and `scroll_offset` to zero, clears `reload_requested`,
and posts the confirmation message; in the `InteractiveMode` subsystem
(the one owning a horizontal scroll), `reload` resets `current_index`,
`scroll_offset` and `value_scroll_offset` to zero. -/
theorem reload_resets_state (s : AppState) (newEntries : List Entry)
    (t : IState) (newE : List Entry) :
    (AppState.reload newEntries s).entries = newEntries ∧
    (AppState.reload newEntries s).current_index = 0 ∧
    (AppState.reload newEntries s).scroll_offset = 0 ∧
    (AppState.reload newEntries s).reload_requested = false ∧
    (AppState.reload newEntries s).message = some msgListReloaded ∧
    (AppState.reload newEntries s).message_expiry_set = true ∧
    (IState.reload newE t).entries = newE ∧
    (IState.reload newE t).current_index = 0 ∧
    (IState.reload newE t).scroll_offset = 0 ∧
    (IState.reload newE t).value_scroll_offset = 0 :=
  ⟨rfl, rfl, rfl, rfl, rfl, rfl, rfl, rfl, rfl, rfl⟩

/-- C6: in Add mode, Enter with a key buffer whose trim is empty leaves
`entries` unchanged, keeps the mode (Add) unchanged, and posts the
rejection message; the trimmed-key emptiness test is the only condition
the Enter handler inspects. -/
theorem add_empty_key_rejected (s : AppState) (b : Bool)
    (hmode : s.mode = Mode.add) (hkey : rustTrim s.input_key = []) :
    handle_add_mode s ⟨KeyCode.enter, b⟩ =
      some { s with message := some msgKeyCannotBeEmpty,
                    message_expiry_set := true } ∧
    (handle_add_mode s ⟨KeyCode.enter, b⟩).map (fun t => t.entries)
      = some s.entries ∧
    (handle_add_mode s ⟨KeyCode.enter, b⟩).map (fun t => t.mode)
      = some Mode.add := by
  have h1 : handle_add_mode s ⟨KeyCode.enter, b⟩ =
      some { s with message := some msgKeyCannotBeEmpty,
                    message_expiry_set := true } := by
    simp only [handle_add_mode, AppState.show_message]
    rw [if_neg]
    simp [List.isEmpty_iff, hkey]
  refine ⟨h1, ?_, ?_⟩ <;> rw [h1] <;> simp [hmode]

theorem add_empty_key_rejected_witness :
    rustTrim [' ', '\t'] = [] ∧
    (handle_add_mode
        { AppState.new [] with mode := Mode.add, input_key := [' ', '\t'],
                               input_value := ['V'] }
        ⟨KeyCode.enter, false⟩).map (fun t => (t.entries, t.mode, t.message))
      = some ([], Mode.add, some msgKeyCannotBeEmpty) := by
  have h := add_empty_key_rejected
    { AppState.new [] with mode := Mode.add, input_key := [' ', '\t'],
                           input_value := ['V'] } false rfl (by decide)
  exact ⟨by decide, by rw [h.1]; rfl⟩

/-- C7: in the `InteractiveMode` list, Right increments
`value_scroll_offset` only while it is below the byte length of the
selected entry's value, Left decrements it with saturation at `0`
(`Nat` subtraction), and consequently along every sequence of key
events the offset never exceeds the selected value's length (and, being
a `Nat`, never goes negative). -/
theorem value_scroll_saturates :
    (∀ s : IState, (IState.scroll_value_left s).value_scroll_offset
        = s.value_scroll_offset - 1) ∧
    (∀ s : IState, (IState.scroll_value_right s).value_scroll_offset
        = if s.value_scroll_offset < curValueLen s
          then s.value_scroll_offset + 1 else s.value_scroll_offset) ∧
    (∀ (s : IState) (evs : List (KeyEvent × List Entry)),
      imScrollInv s → imScrollInv (evs.foldl stepIM s)) := by
  refine ⟨?_, ?_, ?_⟩
  · intro s
    unfold IState.scroll_value_left
    split_ifs <;> (try dsimp only) <;> omega
  · intro s
    unfold IState.scroll_value_right curValueLen
    rcases hl : lookupIdx s.entries s.current_index with _ | kv
    · simp
    · dsimp only
      split_ifs <;> rfl
  · intro s evs hs
    exact foldl_preserves imScrollInv (fun _ => True) stepIM
      (fun a b _ ha => imScroll_step a b ha) evs s (fun _ _ => trivial) hs

theorem value_scroll_saturates_witness :
    imScrollInv
      (([(⟨KeyCode.right, false⟩, []), (⟨KeyCode.right, false⟩, []),
         (⟨KeyCode.left, false⟩, []), (⟨KeyCode.down, false⟩, [])] :
        List (KeyEvent × List Entry)).foldl stepIM
        (IState.init [(['A'], ['v', 'w'])])) :=
  value_scroll_saturates.2.2 _ _ (by decide)

/-- C9: the renderer's displayed value for a value strictly longer (in
bytes) than the truncation width is the prefix of exactly that width
followed by the `...` ellipsis marker (provided the width falls on a
character boundary, where `p` is the corresponding character position),
while a value of exactly the truncation width is displayed in full with
no marker. -/
theorem render_value_truncation (value : List Char) (w p : Nat) :
    (byteLen value > w → charPosOfByte value w = some p →
      truncated_value value w
          = some (value.take p ++ ['.', '.', '.']) ∧
      byteLen (value.take p) = w) ∧
    (byteLen value = w → truncated_value value w = some value) := by
  constructor
  · intro h hp
    refine ⟨?_, byteLen_take_of_charPos value w p hp⟩
    unfold truncated_value
    rw [if_pos h, hp]
    rfl
  · intro h
    unfold truncated_value
    rw [if_neg (by omega)]

theorem render_value_truncation_witness :
    byteLen ['a', 'b', 'c', 'd'] > 3 ∧
    charPosOfByte ['a', 'b', 'c', 'd'] 3 = some 3 ∧
    truncated_value ['a', 'b', 'c', 'd'] 3
        = some ((['a', 'b', 'c', 'd'] : List Char).take 3 ++ ['.', '.', '.']) ∧
    byteLen ((['a', 'b', 'c', 'd'] : List Char).take 3) = 3 ∧
    byteLen ['x', 'y'] = 2 ∧
    truncated_value ['x', 'y'] 2 = some ['x', 'y'] :=
  ⟨by decide, by decide,
   ((render_value_truncation ['a', 'b', 'c', 'd'] 3 3).1
      (by decide) (by decide)).1,
   ((render_value_truncation ['a', 'b', 'c', 'd'] 3 3).1
      (by decide) (by decide)).2,
   by decide,
   (render_value_truncation ['x', 'y'] 2 0).2 (by decide)⟩

/-- Unfolding of the Enter arm of `handle_edit_mode` when the mode holds
an Edit payload. -/
theorem handle_edit_enter_eq (s : AppState) (K : List Char) (b : Bool)
    (hmode : s.mode = Mode.edit K) :
    handle_edit_mode s ⟨KeyCode.enter, b⟩ =
      some { (if (edit_first K (rustTrim s.input_value) s.entries).2 then
                AppState.show_message
                  { s with entries :=
                      (edit_first K (rustTrim s.input_value) s.entries).1 }
                  msgVariableUpdated
              else
                { s with entries :=
                    (edit_first K (rustTrim s.input_value) s.entries).1 })
        with mode := Mode.list } := by
  simp only [handle_edit_mode, hmode]

/-- Entries after a confirmed edit are exactly the `edit_first`
rewrite of the previous entries. -/
theorem handle_edit_enter_entries (s : AppState) (K : List Char) (b : Bool)
    (hmode : s.mode = Mode.edit K) (s' : AppState)
    (h : handle_edit_mode s ⟨KeyCode.enter, b⟩ = some s') :
    s'.entries = (edit_first K (rustTrim s.input_value) s.entries).1 := by
  rw [handle_edit_enter_eq s K b hmode] at h
  injection h with h
  subst h
  by_cases hb : (edit_first K (rustTrim s.input_value) s.entries).2 <;>
    simp [hb, AppState.show_message]

/-- C5: in Edit mode with payload key `K`, Enter returns the mode to
List; if no entry keyed `K` remains, entries and the status message are
unchanged (the edit is silently dropped); if some entry keyed `K` is
present, the value of the first such entry is overwritten with the
trimmed value buffer, the entries length is unchanged, and the
confirmation message is posted. -/
theorem edit_confirm_first_match (s : AppState) (K : List Char) (b : Bool)
    (hmode : s.mode = Mode.edit K) :
    ∃ s', handle_edit_mode s ⟨KeyCode.enter, b⟩ = some s' ∧
      s'.mode = Mode.list ∧
      ((∀ e ∈ s.entries, e.1 ≠ K) →
        s'.entries = s.entries ∧ s'.message = s.message) ∧
      (∀ l₁ old l₂, s.entries = l₁ ++ (K, old) :: l₂ →
        (∀ e ∈ l₁, e.1 ≠ K) →
        s'.entries = l₁ ++ (K, rustTrim s.input_value) :: l₂ ∧
        s'.entries.length = s.entries.length ∧
        s'.message = some msgVariableUpdated) := by
  refine ⟨_, handle_edit_enter_eq s K b hmode, rfl, ?_, ?_⟩
  · intro hall
    have he := edit_first_no_match K (rustTrim s.input_value) s.entries hall
    rw [he]
    exact ⟨rfl, rfl⟩
  · intro l₁ old l₂ hsplit hne
    have he := edit_first_match K (rustTrim s.input_value) old l₁ l₂ hne
    rw [hsplit, he]
    refine ⟨rfl, ?_, rfl⟩
    simp [AppState.show_message]

theorem edit_confirm_first_match_witness :
    ∃ s', handle_edit_mode
        { AppState.new [(['K'], ['o', 'l', 'd']), (['K'], ['x'])] with
          mode := Mode.edit ['K'], input_value := ['n', 'e', 'w'] }
        ⟨KeyCode.enter, false⟩ = some s' ∧
      s'.mode = Mode.list ∧
      ((∀ e ∈ ([(['K'], ['o', 'l', 'd']), (['K'], ['x'])] : List Entry),
          e.1 ≠ (['K'] : List Char)) →
        s'.entries = [(['K'], ['o', 'l', 'd']), (['K'], ['x'])] ∧
        s'.message = none) ∧
      (∀ l₁ old l₂,
        ([(['K'], ['o', 'l', 'd']), (['K'], ['x'])] : List Entry)
            = l₁ ++ ((['K'] : List Char), old) :: l₂ →
        (∀ e ∈ l₁, e.1 ≠ (['K'] : List Char)) →
        s'.entries = l₁ ++ ((['K'] : List Char), rustTrim ['n', 'e', 'w']) :: l₂ ∧
        s'.entries.length
            = ([(['K'], ['o', 'l', 'd']), (['K'], ['x'])] : List Entry).length ∧
        s'.message = some msgVariableUpdated) :=
  edit_confirm_first_match
    { AppState.new [(['K'], ['o', 'l', 'd']), (['K'], ['x'])] with
      mode := Mode.edit ['K'], input_value := ['n', 'e', 'w'] }
    ['K'] false rfl

/-- C10: Enter in Edit mode is a frame-respecting value update: the
entries length is unchanged, every key (at every position, in order) is
unchanged, and every position other than the first match of the payload
key holds a byte-for-byte unchanged entry; and Delete confirmation with
`y` keeps the surviving entries a sublist of the old entries, i.e. in
their original relative order. -/
theorem edit_frame_delete_order :
    (∀ (s : AppState) (K : List Char) (b : Bool), s.mode = Mode.edit K →
      ∀ s', handle_edit_mode s ⟨KeyCode.enter, b⟩ = some s' →
        s'.entries.length = s.entries.length ∧
        (∀ i, (lookupIdx s'.entries i).map Prod.fst
            = (lookupIdx s.entries i).map Prod.fst) ∧
        (∀ i, firstKeyIdx K s.entries ≠ some i →
          lookupIdx s'.entries i = lookupIdx s.entries i)) ∧
    (∀ (s : AppState) (K : List Char) (b : Bool), s.mode = Mode.delete K →
      ((handle_delete_mode s ⟨KeyCode.char 'y', b⟩).entries).Sublist
        s.entries) := by
  constructor
  · intro s K b hmode s' hs'
    have hent := handle_edit_enter_entries s K b hmode s' hs'
    rw [hent]
    exact ⟨edit_first_length K (rustTrim s.input_value) s.entries,
      fun i => edit_first_keys K (rustTrim s.input_value) s.entries i,
      fun i hi => edit_first_frame K (rustTrim s.input_value) s.entries i hi⟩
  · intro s K b hmode
    have hent : (handle_delete_mode s ⟨KeyCode.char 'y', b⟩).entries
        = s.entries.filter (fun e => decide (e.1 ≠ K)) := by
      simp [handle_delete_mode, hmode, AppState.show_message]
    rw [hent]
    exact List.filter_sublist s.entries

theorem edit_frame_delete_order_witness :
    ((handle_edit_mode
        { AppState.new [(['A'], ['0']), (['K'], ['1']), (['K'], ['2'])] with
          mode := Mode.edit ['K'], input_value := ['9'] }
        ⟨KeyCode.enter, false⟩).map (fun t => t.entries.length)
      = some 3) ∧
    ((handle_delete_mode
        { AppState.new [(['A'], ['0']), (['K'], ['1']), (['B'], ['2'])] with
          mode := Mode.delete ['K'] }
        ⟨KeyCode.char 'y', false⟩).entries).Sublist
      [(['A'], ['0']), (['K'], ['1']), (['B'], ['2'])] := by
  constructor
  · have h := (edit_frame_delete_order.1
      { AppState.new [(['A'], ['0']), (['K'], ['1']), (['K'], ['2'])] with
        mode := Mode.edit ['K'], input_value := ['9'] }
      ['K'] false rfl _ rfl).1
    rw [Option.map_eq_some']
    exact ⟨_, rfl, h⟩
  · exact edit_frame_delete_order.2
      { AppState.new [(['A'], ['0']), (['K'], ['1']), (['B'], ['2'])] with
        mode := Mode.delete ['K'] }
      ['K'] false rfl

/-- A state whose Delete payload key matches no entry: the modal refers
to key `K` while the only entry is keyed `A`. -/
def staleDeleteState : AppState :=
  { AppState.new [(['A'], ['1'])] with mode := Mode.delete ['K'] }

/-- C4 counterexample: with a stale Delete payload (no entry keyed `K`
exists at confirmation time), pressing `y` leaves entries unchanged but
is not silent: the status message changes from `none` to the deletion
confirmation, so the claim's "the stale action is dropped silently" is
false on the code. -/
theorem delete_stale_posts_message :
    (handle_delete_mode staleDeleteState ⟨KeyCode.char 'y', false⟩).entries
        = staleDeleteState.entries ∧
    (∀ e ∈ staleDeleteState.entries, e.1 ≠ (['K'] : List Char)) ∧
    staleDeleteState.message = none ∧
    ¬((handle_delete_mode staleDeleteState ⟨KeyCode.char 'y', false⟩).message
        = staleDeleteState.message) ∧
    (handle_delete_mode staleDeleteState ⟨KeyCode.char 'y', false⟩).message
        = some msgVariableDeleted := by
  refine ⟨rfl, ?_, rfl, ?_, rfl⟩
  · decide
  · decide

/-- C4 (amended): in Delete mode with payload key `K`, `y` removes every
entry whose key equals `K` (all matches), posts the deletion
confirmation message, and returns to List; `n` and Esc leave the state
unchanged except for returning the mode to List; and when no entry
keyed `K` exists, `y` leaves entries unchanged but still posts the
deletion confirmation message (the stale action is a no-op on entries,
not silent). -/
theorem delete_confirm_all_matches (s : AppState) (K : List Char)
    (b b₁ b₂ : Bool) (hmode : s.mode = Mode.delete K) :
    ((handle_delete_mode s ⟨KeyCode.char 'y', b⟩).entries
        = s.entries.filter (fun e => decide (e.1 ≠ K)) ∧
     (handle_delete_mode s ⟨KeyCode.char 'y', b⟩).mode = Mode.list ∧
     (handle_delete_mode s ⟨KeyCode.char 'y', b⟩).message
        = some msgVariableDeleted) ∧
    ((∀ e ∈ s.entries, e.1 ≠ K) →
      (handle_delete_mode s ⟨KeyCode.char 'y', b⟩).entries = s.entries) ∧
    handle_delete_mode s ⟨KeyCode.char 'n', b₁⟩
        = { s with mode := Mode.list } ∧
    handle_delete_mode s ⟨KeyCode.esc, b₂⟩
        = { s with mode := Mode.list } := by
  have hy : (handle_delete_mode s ⟨KeyCode.char 'y', b⟩).entries
      = s.entries.filter (fun e => decide (e.1 ≠ K)) := by
    simp [handle_delete_mode, hmode, AppState.show_message]
  refine ⟨⟨hy, ?_, ?_⟩, ?_, ?_, ?_⟩
  · simp [handle_delete_mode, hmode]
  · simp [handle_delete_mode, hmode, AppState.show_message]
  · intro hall
    rw [hy]
    exact List.filter_eq_self.mpr fun e he => decide_eq_true (hall e he)
  · simp [handle_delete_mode]
  · rfl

theorem delete_confirm_all_matches_witness :
    ((handle_delete_mode
        { AppState.new [(['K'], ['1']), (['B'], ['2']), (['K'], ['3'])] with
          mode := Mode.delete ['K'] }
        ⟨KeyCode.char 'y', false⟩).entries
      = ([(['K'], ['1']), (['B'], ['2']), (['K'], ['3'])] : List Entry).filter
          (fun e => decide (e.1 ≠ (['K'] : List Char)))) ∧
    (handle_delete_mode
        { AppState.new [(['K'], ['1']), (['B'], ['2']), (['K'], ['3'])] with
          mode := Mode.delete ['K'] }
        ⟨KeyCode.char 'y', false⟩).mode = Mode.list :=
  ⟨((delete_confirm_all_matches
      { AppState.new [(['K'], ['1']), (['B'], ['2']), (['K'], ['3'])] with
        mode := Mode.delete ['K'] }
      ['K'] false false false rfl).1).1,
   ((delete_confirm_all_matches
      { AppState.new [(['K'], ['1']), (['B'], ['2']), (['K'], ['3'])] with
        mode := Mode.delete ['K'] }
      ['K'] false false false rfl).1).2.1⟩

/-- The state reached from a fresh List-mode state by pressing `a`:
Add mode with empty buffers and zero cursors. -/
def addModeFresh : AppState :=
  handle_list_mode (AppState.new []) ⟨KeyCode.char 'a', false⟩

/-- C8: the no-panic/codepoint-boundary claim fails on the code.  The
input cursors are byte indices but are advanced by `1` per typed
character, so after typing the two-byte character from the Latin-1
supplement the key cursor sits at byte `1`, strictly inside that
character's encoding (not a boundary), and typing a second character
calls `String::insert` at a non-boundary index, which panics (`none`). -/
theorem multibyte_input_panics :
    ((handle_add_mode addModeFresh ⟨KeyCode.char 'é', false⟩).bind
      fun s1 => handle_add_mode s1 ⟨KeyCode.char 'a', false⟩) = none ∧
    (handle_add_mode addModeFresh ⟨KeyCode.char 'é', false⟩).map
        (fun s1 => (s1.input_cursor_key, byteLen s1.input_key,
          charPosOfByte s1.input_key s1.input_cursor_key))
      = some (1, 2, none) := by
  constructor
  · decide
  · decide

end Envfetch
